import Mathlib

/-!
Verification of the Cora node-classification workflow (src/main.ipynb).

The notebook drives an external graph-analytics service: it loads the Cora
citation dataset via two Cypher `LOAD CSV` statements, projects an in-memory
graph, configures and trains a node-classification pipeline, predicts classes
for a held-out node set, writes the predictions back, and cleans up.

The Cypher load statements, the `SUBJECT_TO_ID` mapping, the call arguments and
the cell sequence are embedded from the source.  Operations performed inside
the external engine or the client library (split validation, feature checking,
training, prediction, property streaming and write-back, handle dropping) are
not part of the source; each such definition is modelled from the spec and
carries a doc comment saying so.
-/

namespace Cora

/-- The `SUBJECT_TO_ID` map of the notebook (cell-7), as an association list in
its textual order. -/
def SUBJECT_TO_ID : List (String × Int) :=
  [("Neural_Networks", 0),
   ("Rule_Learning", 1),
   ("Reinforcement_Learning", 2),
   ("Probabilistic_Methods", 3),
   ("Theory", 4),
   ("Genetic_Algorithms", 5),
   ("Case_Based", 6)]

/-- `HOLDOUT_NODES` of the notebook (cell-7). -/
def HOLDOUT_NODES : Nat := 10

/-- Lookup in the subject map, as the Cypher expression `subject_to_id[subject]`
does (missing keys give null, i.e. `none`). -/
def subjectToId (s : String) : Option Int :=
  (SUBJECT_TO_ID.find? (fun p => p.1 = s)).map Prod.snd

/-- A parsed row of the `cora.content` source: external id, subject string and
integer feature vector, as destructured by the `load_nodes` Cypher query. -/
structure ContentRow where
  extId : Int
  subject : String
  features : List Int
deriving DecidableEq, Repr

/-- A node record as created by the `MERGE` clause of `load_nodes`:
`extId`, integer-coded `subject` (null when the subject string is not in the
map) and `features`. -/
structure Node where
  extId : Int
  subject : Option Int
  features : List Int
deriving DecidableEq, Repr

/-- The node the `MERGE` pattern of `load_nodes` describes for a row. -/
def mkNode (row : ContentRow) : Node :=
  { extId := row.extId, subject := subjectToId row.subject, features := row.features }

/-- One `MERGE (p:Paper {...})` step: create the node unless an identical one
already exists. -/
def mergeStep (acc : List Node) (row : ContentRow) : List Node :=
  if mkNode row ∈ acc then acc else acc ++ [mkNode row]

/-- The node set produced by the `MERGE` clause over all CSV rows, in creation
order. -/
def mergeNodes (rows : List ContentRow) : List Node :=
  rows.foldl mergeStep []

/-- The database state after `load_nodes`: the `WITH p LIMIT HOLDOUT_NODES`
clause binds the merged node of each of the first `holdout` rows, and
`REMOVE p:Paper SET p:UnclassifiedPaper` relabels exactly those nodes. -/
structure LoadedNodes where
  papers : List Node
  unclassified : List Node
deriving DecidableEq, Repr

/-- The `load_nodes` Cypher statement (cell-9): merge a node per row, then
relabel the nodes bound by the first `holdout` rows to `UnclassifiedPaper`. -/
def load_nodes (rows : List ContentRow) (holdout : Nat) : LoadedNodes :=
  { papers := (mergeNodes rows).filter
      (fun n => ¬ n ∈ (rows.map mkNode).take holdout),
    unclassified := (mergeNodes rows).filter
      (fun n => n ∈ (rows.map mkNode).take holdout) }

/-- One `MERGE (n)-[:CITES]->(m)` step: create the relationship between this
node pair unless it already exists. -/
def mergeEdge (acc : List (Node × Node)) (e : Node × Node) : List (Node × Node) :=
  if e ∈ acc then acc else acc ++ [e]

/-- Processing of one `cora.cites` row by `load_relationships`:
`MATCH (n), (m) WHERE n.extId = row[0] AND m.extId = row[1]` binds every pair
of nodes whose external ids match the row (no pair when an id does not
resolve), and `MERGE` creates each missing `CITES` relationship. -/
def relStep (nodes : List Node) (acc : List (Node × Node)) (row : Int × Int) :
    List (Node × Node) :=
  (List.product (nodes.filter (fun n => n.extId = row.1))
                (nodes.filter (fun m => m.extId = row.2))).foldl mergeEdge acc

/-- The `load_relationships` Cypher statement (cell-9): fold the per-row
match-and-merge over all citation rows, starting from no relationships. -/
def load_relationships (nodes : List Node) (rows : List (Int × Int)) :
    List (Node × Node) :=
  rows.foldl (relStep nodes) []

/-- All nodes of the loaded database, as the unlabelled `MATCH (n), (m)`
pattern sees them. -/
def allNodes (db : LoadedNodes) : List Node :=
  db.unclassified ++ db.papers

/-- Whether both external ids of a citation row resolve to loaded nodes. -/
def resolvable (nodes : List Node) (row : Int × Int) : Bool :=
  nodes.any (fun n => n.extId = row.1) && nodes.any (fun m => m.extId = row.2)

/-- The undirected relationship set the projection derives from the stored
`CITES` relationships: `orientation: "UNDIRECTED"` adds both directions and
`aggregation: "SINGLE"` keeps one parallel relationship per unordered pair, so
the unique undirected edges are the stored edges with inverse duplicates
suppressed. -/
def undirectedEdges (es : List (Node × Node)) : List (Node × Node) :=
  es.foldl (fun acc e => if e ∈ acc ∨ (e.2, e.1) ∈ acc then acc else acc ++ [e]) []

/-- C8 (helper): the subject codes, in textual order. -/
def subjectCodes : List Int := SUBJECT_TO_ID.map Prod.snd

/-- A remote round trip to the external service, as issued by the client
layer. -/
inductive RemoteCall where
  | splitConfig : ℚ → Nat → RemoteCall
  | train : String → RemoteCall
deriving DecidableEq, Repr

/-- The configuration record held by a pipeline handle (feature properties and
split settings, as listed by `gds.beta.pipeline.list`). -/
structure PipelineConfig where
  featureProperties : List String
  testFraction : ℚ
  validationFolds : Nat
deriving DecidableEq, Repr

/-- Modelled from the spec: the implementation of `configureSplit` lives in
the client library, not in src/; per the spec it validates the test fraction
in the open interval (0,1) and the fold count at least 1 locally, and only on
success issues the remote configuration call.  The second component records
the remote round trips made. -/
def configureSplit (p : PipelineConfig) (testFraction : ℚ) (validationFolds : Nat) :
    Except String PipelineConfig × List RemoteCall :=
  if 0 < testFraction ∧ testFraction < 1 ∧ 1 ≤ validationFolds then
    (Except.ok { p with testFraction := testFraction, validationFolds := validationFolds },
     [RemoteCall.splitConfig testFraction validationFolds])
  else
    (Except.error "testFraction must be in (0,1) and validationFolds at least 1", [])

/-- A projected graph as the configuration layer sees it: its name and the
node property names present on the projection. -/
structure ProjectedGraph where
  name : String
  nodeProperties : List String
deriving DecidableEq, Repr

/-- Modelled from the spec: `selectFeatures` (client library, not in src/)
requires every selected feature property to exist on the projected graph's
nodes; a missing property is an error. -/
def selectFeatures (g : ProjectedGraph) (p : PipelineConfig) (feats : List String) :
    Except String PipelineConfig :=
  if feats.all (fun f => f ∈ g.nodeProperties) then
    Except.ok { p with featureProperties := p.featureProperties ++ feats }
  else
    Except.error "feature property missing from projected graph"

/-- Modelled from the spec: fail-fast sequencing of the workflow — any failed
step aborts the remaining sequence, so the train request is issued only after
feature selection succeeded. -/
def selectThenTrain (g : ProjectedGraph) (p : PipelineConfig) (feats : List String) :
    List RemoteCall :=
  match selectFeatures g p feats with
  | Except.error _ => []
  | Except.ok _ => [RemoteCall.train g.name]

/-- A server-side handle (model, pipeline or projected graph): its name and
whether it has been dropped. -/
structure Handle where
  name : String
  isDropped : Bool
deriving DecidableEq, Repr

/-- Modelled from the spec: dropping a live handle succeeds and marks it
dropped; dropping an already-dropped handle is rejected with an error (the
drop calls of the cleanup cell are remote deletions, not in src/). -/
def dropHandle (h : Handle) : Except String Handle :=
  if h.isDropped then
    Except.error (h.name ++ " does not exist")
  else
    Except.ok { h with isDropped := true }

/-- A top-level statement of a notebook cell: its text, the global names it
references, and the global names its execution defines. -/
structure Stmt where
  code : String
  uses : List String
  defines : List String
deriving DecidableEq, Repr

/-- Sequential fail-fast execution of statements: a statement referencing a
name absent from the environment raises a NameError and halts the run;
otherwise it executes, defines its names, and the run continues.  Returns the
executed statements in order and the error, if any. -/
def runStmts (env : List String) : List Stmt → List Stmt × Option String
  | [] => ([], none)
  | s :: rest =>
    match s.uses.find? (fun u => !(env.contains u)) with
    | some u => ([], some ("NameError: name " ++ u ++ " is not defined"))
    | none =>
      ((runStmts (env ++ s.defines) rest).1.cons s, (runStmts (env ++ s.defines) rest).2)

/-- The global names assigned by the notebook cells preceding the cleanup cell
(imports of cell-1, connection setup of cell-3, data and load statements of
cells 5-9, projection of cell-11, pipeline of cell-13, training of cell-20,
prediction of cells 24-26). -/
def definedBeforeCleanup : List String :=
  ["os", "json", "np", "pd", "GraphDataScience",
   "NEO4J_URI", "NEO4J_DB", "NEO4J_AUTH", "gds",
   "CORA_CONTENT", "CORA_CITES", "SUBJECT_TO_ID", "HOLDOUT_NODES",
   "subject_map", "load_nodes", "load_relationships",
   "G", "node_pipeline", "model", "stats",
   "predicted", "nodes", "nodes_df"]

/-- The statements of the cleanup sequence as written: the cleanup cell
(cell-31), the row-deletion cell (cell-33) and the session-close cell
(cell-35), in order. -/
def cleanupStmts : List Stmt :=
  [⟨"model.drop()", ["model"], []⟩,
   ⟨"model_fastrp.drop()", ["model_fastrp"], []⟩,
   ⟨"node_pipeline.drop()", ["node_pipeline"], []⟩,
   ⟨"node_pipeline_fastrp.drop()", ["node_pipeline_fastrp"], []⟩,
   ⟨"G.drop()", ["G"], []⟩,
   ⟨"gds.run_cypher(MATCH (n) WHERE n:Paper OR n:UnclassifiedPaper DETACH DELETE n)",
    ["gds"], []⟩,
   ⟨"gds.close()", ["gds"], []⟩]

/-- A node property value: an integer (subject, predicted class), an integer
list (feature vector) or a rational list (predicted probabilities). -/
inductive PropVal where
  | int : Int → PropVal
  | intList : List Int → PropVal
  | ratList : List ℚ → PropVal
deriving DecidableEq, Repr

/-- Lookup of a node property by name. -/
def lookupProp (k : String) (ps : List (String × PropVal)) : Option PropVal :=
  (ps.find? (fun kv => kv.1 = k)).map Prod.snd

/-- Setting a node property: any earlier binding of the name is replaced. -/
def setProp (ps : List (String × PropVal)) (k : String) (v : PropVal) :
    List (String × PropVal) :=
  ps.filter (fun kv => ¬ kv.1 = k) ++ [(k, v)]

/-- A node of the database or of a projected graph: internal node id, its
label and its property map. -/
structure PNode where
  nodeId : Nat
  label : String
  props : List (String × PropVal)
deriving DecidableEq, Repr

/-- The property map the `MERGE` clause of `load_nodes` stores on a node:
`extId`, the integer-coded `subject` (absent when the subject string was not
in the map) and the `features` vector. -/
def nodeProps (n : Node) : List (String × PropVal) :=
  [("extId", PropVal.int n.extId)] ++
  (match n.subject with
   | some c => [("subject", PropVal.int c)]
   | none => []) ++
  [("features", PropVal.intList n.features)]

/-- The database after `load_nodes` (cell-9), with internal node ids in
creation order: each merged node keeps its properties, and the nodes bound by
the first `holdout` rows carry the `UnclassifiedPaper` label instead of
`Paper`. -/
def dbAfterLoad (rows : List ContentRow) (holdout : Nat) : List PNode :=
  (mergeNodes rows).enum.map (fun q =>
    { nodeId := q.1,
      label := if q.2 ∈ (rows.map mkNode).take holdout then "UnclassifiedPaper"
               else "Paper",
      props := nodeProps q.2 })

/-- The projection of cell-11 (`gds.graph.project "cora-graph" ...`): `Paper`
nodes keep the properties `features` and `subject`, `UnclassifiedPaper` nodes
keep `features`; nodes with any other label are not projected. -/
def projectCora (db : List PNode) : List PNode :=
  db.filterMap (fun n =>
    if n.label = "Paper" then
      some { n with props :=
        (n.props.filter (fun kv => kv.1 ∈ (["features", "subject"] : List String))) }
    else if n.label = "UnclassifiedPaper" then
      some { n with props :=
        (n.props.filter (fun kv => kv.1 ∈ (["features"] : List String))) }
    else none)

/-- The integer carried by a property value, when it is an integer. -/
def asInt : PropVal → Option Int
  | PropVal.int c => some c
  | _ => none

/-- Modelled from the spec: the class values a model trained with
`targetNodeLabels=["Paper"]` and `targetProperty="subject"` can predict are
the subject values observed on the `Paper` nodes of the projected graph. -/
def classValues (g : List PNode) : List Int :=
  (g.filterMap (fun n =>
    if n.label = "Paper" then (lookupProp "subject" n.props).bind asInt
    else none)).dedup

/-- Modelled from the spec: `model.predict_mutate` (cell-24, executed in the
external engine) mutates every node carrying a target label with the
`predictedClass` property — one of the trained model's class values, the
engine's choice being abstracted by `pick` — and the `predictedProbabilities`
property, abstracted by `prob`; other nodes are untouched. -/
def predict_mutate (pick : Nat → Nat) (prob : Nat → List ℚ)
    (g : List PNode) (targetLabels : List String) : List PNode :=
  g.map (fun n =>
    if n.label ∈ targetLabels then
      { n with props :=
          (setProp
            (setProp n.props "predictedClass"
              (PropVal.int ((classValues g).getD
                (pick n.nodeId % (classValues g).length) 0)))
            "predictedProbabilities" (PropVal.ratList (prob n.nodeId))) }
    else n)

/-- Modelled from the spec: `gds.graph.streamNodeProperty` returns one row
(node id, property value) per node of the projected graph that carries one of
the given labels and the named property. -/
def streamNodeProperty (g : List PNode) (prop : String) (labels : List String) :
    List (Nat × PropVal) :=
  g.filterMap (fun n =>
    if n.label ∈ labels then (lookupProp prop n.props).map (fun v => (n.nodeId, v))
    else none)

/-- Modelled from the spec: `gds.graph.nodeProperties.write` (cell-29) copies
the named in-memory node properties back to the database, for the database
nodes matched (by node id) by a projected node carrying one of the given
labels; all other database nodes and properties are untouched. -/
def nodePropertiesWrite (g : List PNode) (db : List PNode)
    (properties : List String) (labels : List String) : List PNode :=
  db.map (fun dn =>
    match g.find? (fun gn => gn.nodeId == dn.nodeId && decide (gn.label ∈ labels)) with
    | some gn =>
        { dn with props := properties.foldl (fun ps p =>
            match lookupProp p gn.props with
            | some v => setProp ps p v
            | none => ps) dn.props }
    | none => dn)

/-- The pipeline configuration assembled by the notebook (cells 17 and 19-20):
feature properties, split settings, the logistic-regression candidate's
hyperparameters, the autotuning trial cap and the requested metrics. -/
structure TrainConfig where
  featureProperties : List String
  testFraction : ℚ
  validationFolds : Nat
  maxEpochs : Nat
  penaltyRange : ℚ × ℚ
  maxTrials : Nat
  metrics : List String
deriving DecidableEq, Repr

/-- The configuration values the notebook passes: `selectFeatures(["features"])`,
`configureSplit(testFraction=0.2, validationFolds=5)`,
`addLogisticRegression(maxEpochs=200, penalty=(0.0, 0.5))`,
`configureAutoTuning(maxTrials=5)`, `metrics=["F1_WEIGHTED"]`. -/
def notebookTrainConfig : TrainConfig :=
  { featureProperties := ["features"],
    testFraction := 1 / 5,
    validationFolds := 5,
    maxEpochs := 200,
    penaltyRange := (0, 1 / 2),
    maxTrials := 5,
    metrics := ["F1_WEIGHTED"] }

/-- The per-metric scores of a training result; the test-set score is a single
scalar. -/
structure MetricScores where
  test : ℚ
deriving DecidableEq, Repr

/-- A training result: the `modelInfo.metrics` record of the returned stats. -/
structure TrainResult where
  metrics : List (String × MetricScores)
deriving DecidableEq, Repr

/-- Modelled from the spec: `node_pipeline.train` delegates the search and
training to the external engine and returns a stats record exposing, per
requested metric, a scores record with a scalar test-set score; the engine's
numbers are abstracted by `score`. -/
def train (cfg : TrainConfig) (score : String → ℚ) : TrainResult :=
  { metrics := cfg.metrics.map (fun m => (m, { test := score m })) }

/-- C7 witness: 11 concrete rows covering all 7 categories, with the first 10
held out. -/
def coraWitnessRows : List ContentRow :=
  [⟨0, "Neural_Networks", []⟩, ⟨1, "Rule_Learning", []⟩,
   ⟨2, "Reinforcement_Learning", []⟩, ⟨3, "Probabilistic_Methods", []⟩,
   ⟨4, "Theory", []⟩, ⟨5, "Genetic_Algorithms", []⟩, ⟨6, "Case_Based", []⟩,
   ⟨7, "Neural_Networks", [1]⟩, ⟨8, "Theory", [1]⟩, ⟨9, "Case_Based", [1]⟩,
   ⟨10, "Theory", [2]⟩]

/-- C8: the label-to-integer mapping is a bijection from the 7 subject strings
onto {0,...,6}: there are 7 entries with pairwise-distinct subject strings,
distinct entries carry distinct codes, and every integer in [0,6] is the code
of exactly one subject. -/
theorem subject_to_id_bijection :
    SUBJECT_TO_ID.length = 7 ∧
    (SUBJECT_TO_ID.map Prod.fst).Nodup ∧
    SUBJECT_TO_ID.Pairwise (fun p q => p.2 ≠ q.2) ∧
    (∀ k ∈ ([0, 1, 2, 3, 4, 5, 6] : List Int),
      (SUBJECT_TO_ID.filter (fun p => p.2 = k)).length = 1) ∧
    (∀ p ∈ SUBJECT_TO_ID, p.2 ∈ ([0, 1, 2, 3, 4, 5, 6] : List Int)) := by
  decide

/-- When no row merges into a node already present and the row images are
pairwise distinct, the `MERGE` fold creates one node per row, in row order. -/
theorem foldl_mergeStep_eq (rows : List ContentRow) (acc : List Node)
    (h1 : ∀ r ∈ rows, mkNode r ∉ acc) (h2 : (rows.map mkNode).Nodup) :
    rows.foldl mergeStep acc = acc ++ rows.map mkNode := by
  induction rows generalizing acc with
  | nil => simp
  | cons r rs ih =>
    have hr : mkNode r ∉ acc := h1 r (List.mem_cons_self r rs)
    have hstep : mergeStep acc r = acc ++ [mkNode r] := by
      simp [mergeStep, hr]
    rw [List.map_cons, List.nodup_cons] at h2
    have h1' : ∀ r' ∈ rs, mkNode r' ∉ acc ++ [mkNode r] := by
      intro r' hr' hmem
      rcases List.mem_append.mp hmem with h | h
      · exact h1 r' (List.mem_cons_of_mem r hr') h
      · have heq : mkNode r' = mkNode r := List.mem_singleton.mp h
        exact h2.1 (heq ▸ List.mem_map_of_mem mkNode hr')
    calc (r :: rs).foldl mergeStep acc = rs.foldl mergeStep (acc ++ [mkNode r]) := by
          simp [List.foldl_cons, hstep]
      _ = (acc ++ [mkNode r]) ++ rs.map mkNode := ih (acc ++ [mkNode r]) h1' h2.2
      _ = acc ++ (r :: rs).map mkNode := by simp

/-- Under pairwise-distinct row images, `MERGE` creates exactly the row images. -/
theorem mergeNodes_eq_map (rows : List ContentRow)
    (h : (rows.map mkNode).Nodup) : mergeNodes rows = rows.map mkNode := by
  simpa using foldl_mergeStep_eq rows [] (by simp) h

/-- Filtering a disjoint concatenation by membership in the left part keeps
exactly the left part; filtering by non-membership keeps exactly the right. -/
theorem filter_mem_left_append {α : Type} [DecidableEq α] (t d : List α)
    (hdisj : List.Disjoint t d) :
    (t ++ d).filter (fun n => n ∈ t) = t ∧
    (t ++ d).filter (fun n => ¬ n ∈ t) = d := by
  have htake1 : t.filter (fun n => n ∈ t) = t :=
    List.filter_eq_self.mpr (fun a ha => by simpa using ha)
  have hdrop1 : d.filter (fun n => n ∈ t) = [] :=
    List.filter_eq_nil_iff.mpr (fun a ha => by simpa using fun hc => hdisj hc ha)
  have htake2 : t.filter (fun n => ¬ n ∈ t) = [] :=
    List.filter_eq_nil_iff.mpr (fun a ha => by simpa using ha)
  have hdrop2 : d.filter (fun n => ¬ n ∈ t) = d :=
    List.filter_eq_self.mpr (fun a ha => by simpa using fun hc => hdisj hc ha)
  constructor
  · rw [List.filter_append, htake1, hdrop1, List.append_nil]
  · rw [List.filter_append, htake2, hdrop2, List.nil_append]

/-- For a duplicate-free list, keeping the elements of the `K`-prefix keeps
exactly the `K`-prefix (in order). -/
theorem filter_mem_take_of_nodup {α : Type} [DecidableEq α] (l : List α) (K : Nat)
    (h : l.Nodup) :
    l.filter (fun n => n ∈ l.take K) = l.take K ∧
    l.filter (fun n => ¬ n ∈ l.take K) = l.drop K := by
  have hdisj : List.Disjoint (l.take K) (l.drop K) :=
    List.disjoint_take_drop h (le_refl K)
  have := filter_mem_left_append (l.take K) (l.drop K) hdisj
  rwa [List.take_append_drop] at this

/-- A fold whose step grows the accumulator by at most one element grows it by
at most the length of the input. -/
theorem length_foldl_le {α β : Type} (f : List β → α → List β)
    (h : ∀ acc x, (f acc x).length ≤ acc.length + 1) :
    ∀ (l : List α) (acc : List β), (l.foldl f acc).length ≤ acc.length + l.length := by
  intro l
  induction l with
  | nil => intro acc; simp
  | cons x xs ih =>
    intro acc
    calc ((x :: xs).foldl f acc).length = (xs.foldl f (f acc x)).length := by simp
      _ ≤ (f acc x).length + xs.length := ih (f acc x)
      _ ≤ (acc.length + 1) + xs.length := Nat.add_le_add_right (h acc x) _
      _ = acc.length + (x :: xs).length := by simp [Nat.add_assoc, Nat.add_comm 1]

/-- When the images of a list are pairwise distinct, at most one element has a
given image. -/
theorem length_filter_eq_le_one {α β : Type} [DecidableEq β] (f : α → β)
    (l : List α) (h : (l.map f).Nodup) (b : β) :
    (l.filter (fun x => f x = b)).length ≤ 1 := by
  induction l with
  | nil => simp
  | cons x xs ih =>
    simp only [List.map_cons, List.nodup_cons] at h
    by_cases hx : f x = b
    · have hxs : xs.filter (fun x => f x = b) = [] := by
        refine List.filter_eq_nil_iff.mpr (fun a ha => ?_)
        simp only [decide_eq_true_eq]
        intro hab
        exact h.1 (hx ▸ hab ▸ List.mem_map_of_mem f ha)
      simp [List.filter_cons, hx, hxs]
    · simpa [List.filter_cons, hx] using ih h.2

/-- Adding one relationship grows the relationship set by at most one. -/
theorem length_mergeEdge_le (acc : List (Node × Node)) (e : Node × Node) :
    (mergeEdge acc e).length ≤ acc.length + 1 := by
  by_cases he : e ∈ acc <;> simp [mergeEdge, he]

/-- With pairwise-distinct external ids, one citation row creates at most one
relationship. -/
theorem length_relStep_le (nodes : List Node)
    (h : (nodes.map Node.extId).Nodup) (acc : List (Node × Node)) (row : Int × Int) :
    (relStep nodes acc row).length ≤ acc.length + 1 := by
  have h1 : (nodes.filter (fun n => n.extId = row.1)).length ≤ 1 :=
    length_filter_eq_le_one Node.extId nodes h row.1
  have h2 : (nodes.filter (fun m => m.extId = row.2)).length ≤ 1 :=
    length_filter_eq_le_one Node.extId nodes h row.2
  have hlen : (List.product (nodes.filter (fun n => n.extId = row.1))
      (nodes.filter (fun m => m.extId = row.2))).length =
      (nodes.filter (fun n => n.extId = row.1)).length *
      (nodes.filter (fun m => m.extId = row.2)).length :=
    List.length_product _ _
  have hprod : (List.product (nodes.filter (fun n => n.extId = row.1))
      (nodes.filter (fun m => m.extId = row.2))).length ≤ 1 := by
    rw [hlen]
    calc _ ≤ 1 * (nodes.filter (fun m => m.extId = row.2)).length :=
          Nat.mul_le_mul_right _ h1
      _ ≤ 1 * 1 := Nat.mul_le_mul_left _ h2
      _ = 1 := by norm_num
  calc (relStep nodes acc row).length
      ≤ acc.length + (List.product (nodes.filter (fun n => n.extId = row.1))
          (nodes.filter (fun m => m.extId = row.2))).length :=
        length_foldl_le mergeEdge length_mergeEdge_le _ acc
    _ ≤ acc.length + 1 := Nat.add_le_add_left hprod _

/-- With pairwise-distinct external ids, at most one relationship is created
per citation row. -/
theorem length_load_relationships_le (nodes : List Node)
    (h : (nodes.map Node.extId).Nodup) (rows : List (Int × Int)) :
    (load_relationships nodes rows).length ≤ rows.length := by
  simpa using length_foldl_le (relStep nodes) (length_relStep_le nodes h) rows []

/-- The undirected projection has no more edges than the stored relationships. -/
theorem length_undirectedEdges_le (es : List (Node × Node)) :
    (undirectedEdges es).length ≤ es.length := by
  simpa using length_foldl_le _
    (fun acc e => by by_cases he : e ∈ acc ∨ (e.2, e.1) ∈ acc <;> simp [he]) es []

/-- The external ids of the merged nodes are the external ids of the rows. -/
theorem map_extId_map_mkNode (rows : List ContentRow) :
    (rows.map mkNode).map Node.extId = rows.map ContentRow.extId := by
  rw [List.map_map]
  rfl

/-- C1: loading `N` node rows with a held-out count `K` (with distinct external
ids, subjects from the map, and `K ≤ N`) creates exactly `N` node entities of
which exactly the first `K` in arrival order are unclassified, the remaining
`N - K` are `Paper` nodes with an integer-coded label, and loading `M` citation
rows creates at most `M` undirected unique edges. -/
theorem load_creates_nodes_and_edges
    (rows : List ContentRow) (cites : List (Int × Int)) (K : Nat)
    (hK : K ≤ rows.length)
    (hid : (rows.map ContentRow.extId).Nodup)
    (hsub : ∀ r ∈ rows, (subjectToId r.subject).isSome) :
    (load_nodes rows K).unclassified.length + (load_nodes rows K).papers.length
      = rows.length ∧
    (load_nodes rows K).unclassified = (rows.map mkNode).take K ∧
    (load_nodes rows K).unclassified.length = K ∧
    (∀ n ∈ (load_nodes rows K).papers, ∃ c : Int, n.subject = some c) ∧
    (undirectedEdges (load_relationships (allNodes (load_nodes rows K)) cites)).length
      ≤ cites.length := by
  have hnodup : (rows.map mkNode).Nodup :=
    List.Nodup.of_map Node.extId (by rwa [map_extId_map_mkNode])
  have hmerge := mergeNodes_eq_map rows hnodup
  have hfilter := filter_mem_take_of_nodup (rows.map mkNode) K hnodup
  have hunc : (load_nodes rows K).unclassified = (rows.map mkNode).take K := by
    simp only [load_nodes, hmerge]
    exact hfilter.1
  have hpap : (load_nodes rows K).papers = (rows.map mkNode).drop K := by
    simp only [load_nodes, hmerge]
    exact hfilter.2
  have hall : allNodes (load_nodes rows K) = rows.map mkNode := by
    rw [allNodes, hunc, hpap, List.take_append_drop]
  refine ⟨?_, hunc, ?_, ?_, ?_⟩
  · rw [hunc, hpap, List.length_take, List.length_drop, List.length_map]
    omega
  · rw [hunc, List.length_take, List.length_map]
    omega
  · intro n hn
    rw [hpap] at hn
    obtain ⟨r, hr, rfl⟩ := List.mem_map.mp (List.mem_of_mem_drop hn)
    exact Option.isSome_iff_exists.mp (hsub r hr)
  · calc (undirectedEdges (load_relationships (allNodes (load_nodes rows K)) cites)).length
        ≤ (load_relationships (allNodes (load_nodes rows K)) cites).length :=
          length_undirectedEdges_le _
      _ ≤ cites.length := by
          refine length_load_relationships_le _ ?_ cites
          rw [hall, map_extId_map_mkNode]
          exact hid

/-- C1 witness: the load of two concrete rows with one held out and two
citation rows (the same citation twice, in both directions). -/
theorem load_creates_nodes_and_edges_witness :
    (1 : Nat) ≤ ([⟨1, "Theory", [1, 0]⟩, ⟨2, "Case_Based", [0, 1]⟩] :
        List ContentRow).length ∧
    ((load_nodes [⟨1, "Theory", [1, 0]⟩, ⟨2, "Case_Based", [0, 1]⟩] 1).unclassified.length +
      (load_nodes [⟨1, "Theory", [1, 0]⟩, ⟨2, "Case_Based", [0, 1]⟩] 1).papers.length = 2 ∧
    (load_nodes [⟨1, "Theory", [1, 0]⟩, ⟨2, "Case_Based", [0, 1]⟩] 1).unclassified =
      (([⟨1, "Theory", [1, 0]⟩, ⟨2, "Case_Based", [0, 1]⟩] :
        List ContentRow).map mkNode).take 1 ∧
    (load_nodes [⟨1, "Theory", [1, 0]⟩, ⟨2, "Case_Based", [0, 1]⟩] 1).unclassified.length = 1 ∧
    (∀ n ∈ (load_nodes [⟨1, "Theory", [1, 0]⟩, ⟨2, "Case_Based", [0, 1]⟩] 1).papers,
      ∃ c : Int, n.subject = some c) ∧
    (undirectedEdges (load_relationships
      (allNodes (load_nodes [⟨1, "Theory", [1, 0]⟩, ⟨2, "Case_Based", [0, 1]⟩] 1))
      [(1, 2), (2, 1)])).length ≤ 2) :=
  ⟨by decide,
   load_creates_nodes_and_edges
     [⟨1, "Theory", [1, 0]⟩, ⟨2, "Case_Based", [0, 1]⟩] [(1, 2), (2, 1)] 1
     (by decide) (by decide) (by decide)⟩

/-- A citation row one of whose external ids does not resolve binds no node
pair, so its `MERGE` creates nothing. -/
theorem relStep_unresolvable (nodes : List Node) (acc : List (Node × Node))
    (row : Int × Int) (h : resolvable nodes row = false) :
    relStep nodes acc row = acc := by
  rw [resolvable, Bool.and_eq_false_iff] at h
  rcases h with h | h
  · have : nodes.filter (fun n => n.extId = row.1) = [] :=
      List.filter_eq_nil_iff.mpr (by simpa [List.any_eq_false] using h)
    rw [relStep, this]
    rfl
  · have : nodes.filter (fun m => m.extId = row.2) = [] :=
      List.filter_eq_nil_iff.mpr (by simpa [List.any_eq_false] using h)
    rw [relStep, this]
    have hprod : List.product (nodes.filter (fun n => n.extId = row.1))
        ([] : List Node) = [] := List.product_nil _
    rw [hprod]
    rfl

/-- A fold ignores exactly the inputs its step ignores. -/
theorem foldl_filter_eq {α β : Type} (f : β → α → β) (p : α → Bool)
    (hstep : ∀ acc x, p x = false → f acc x = acc) :
    ∀ (l : List α) (init : β), l.foldl f init = (l.filter p).foldl f init := by
  intro l
  induction l with
  | nil => intro init; rfl
  | cons x xs ih =>
    intro init
    by_cases hx : p x = true
    · rw [List.foldl_cons, List.filter_cons_of_pos hx, List.foldl_cons]
      exact ih (f init x)
    · have hx' : p x = false := by simpa using hx
      rw [List.foldl_cons, hstep init x hx', List.filter_cons_of_neg (by simp [hx'])]
      exact ih init

/-- C4: a citation row whose two external ids do not both resolve to loaded
nodes creates no edge and raises no error — appending such a row leaves the
relationship set unchanged — and the loaded relationships are exactly those of
the resolvable rows, so resolvable rows are unaffected by the skipped ones. -/
theorem load_relationships_skips_unresolved
    (nodes : List Node) (rows : List (Int × Int)) (row : Int × Int)
    (h : resolvable nodes row = false) :
    load_relationships nodes (rows ++ [row]) = load_relationships nodes rows ∧
    load_relationships nodes rows =
      load_relationships nodes (rows.filter (resolvable nodes)) := by
  constructor
  · rw [load_relationships, List.foldl_append]
    exact relStep_unresolvable nodes _ row h
  · exact foldl_filter_eq (relStep nodes) (resolvable nodes)
      (fun acc x hx => relStep_unresolvable nodes acc x hx) rows []

/-- C4 witness: with one loaded node of external id 1, the citation row (1, 2)
does not resolve and creates nothing. -/
theorem load_relationships_skips_unresolved_witness :
    resolvable [⟨1, none, []⟩] (1, 2) = false ∧
    (load_relationships [⟨1, none, []⟩] ([(1, 1)] ++ [(1, 2)]) =
      load_relationships [⟨1, none, []⟩] [(1, 1)] ∧
    load_relationships [⟨1, none, []⟩] [(1, 1)] =
      load_relationships [⟨1, none, []⟩]
        ([(1, 1)].filter (resolvable [⟨1, none, []⟩]))) :=
  ⟨by decide,
   load_relationships_skips_unresolved [⟨1, none, []⟩] [(1, 1)] (1, 2) (by decide)⟩

/-- C2: a split configuration with a test fraction outside (0,1) or a fold
count below 1 is rejected locally, with no remote round trip made. -/
theorem configureSplit_rejects_locally (p : PipelineConfig)
    (tf : ℚ) (folds : Nat) (h : tf ≤ 0 ∨ 1 ≤ tf ∨ folds < 1) :
    (configureSplit p tf folds).1 =
      Except.error "testFraction must be in (0,1) and validationFolds at least 1" ∧
    (configureSplit p tf folds).2 = [] := by
  have hno : ¬ (0 < tf ∧ tf < 1 ∧ 1 ≤ folds) := by
    rintro ⟨h1, h2, h3⟩
    rcases h with h | h | h
    · linarith
    · linarith
    · omega
  constructor <;> simp [configureSplit, hno]

/-- C2 witness: `testFraction = 2` (outside (0,1)) is rejected locally on the
notebook's pipeline configuration. -/
theorem configureSplit_rejects_locally_witness :
    ((2 : ℚ) ≤ 0 ∨ (1 : ℚ) ≤ 2 ∨ (5 : Nat) < 1) ∧
    ((configureSplit ⟨["features"], 1 / 5, 5⟩ 2 5).1 =
      Except.error "testFraction must be in (0,1) and validationFolds at least 1" ∧
    (configureSplit ⟨["features"], 1 / 5, 5⟩ 2 5).2 = []) :=
  ⟨Or.inr (Or.inl (by norm_num)),
   configureSplit_rejects_locally ⟨["features"], 1 / 5, 5⟩ 2 5
     (Or.inr (Or.inl (by norm_num)))⟩

/-- C3: selecting a feature property absent from the projected graph's nodes
fails, and the subsequent train request is never sent. -/
theorem selectFeatures_missing_blocks_train (g : ProjectedGraph)
    (p : PipelineConfig) (feats : List String) (f : String)
    (hf : f ∈ feats) (hmiss : ¬ f ∈ g.nodeProperties) :
    selectFeatures g p feats =
      Except.error "feature property missing from projected graph" ∧
    ∀ c ∈ selectThenTrain g p feats, ∀ s, c ≠ RemoteCall.train s := by
  have hall : feats.all (fun f => f ∈ g.nodeProperties) = false := by
    rw [List.all_eq_false]
    exact ⟨f, hf, by simpa using hmiss⟩
  constructor
  · simp [selectFeatures, hall]
  · simp [selectThenTrain, selectFeatures, hall]

/-- C3 witness: selecting the absent property on the notebook's projection
(which carries only `features` and `subject`) blocks training. -/
theorem selectFeatures_missing_blocks_train_witness :
    "answer" ∈ ["answer"] ∧
    (selectFeatures ⟨"cora-graph", ["features", "subject"]⟩ ⟨[], 1 / 5, 5⟩ ["answer"] =
      Except.error "feature property missing from projected graph" ∧
    ∀ c ∈ selectThenTrain ⟨"cora-graph", ["features", "subject"]⟩ ⟨[], 1 / 5, 5⟩
        ["answer"], ∀ s, c ≠ RemoteCall.train s) :=
  ⟨by decide,
   selectFeatures_missing_blocks_train ⟨"cora-graph", ["features", "subject"]⟩
     ⟨[], 1 / 5, 5⟩ ["answer"] "answer" (by decide) (by decide)⟩

/-- C6: for every handle name, a first drop of the live handle succeeds, and a
second drop of the resulting already-dropped handle is rejected with an
error. -/
theorem dropHandle_second_rejected (name : String) :
    dropHandle ⟨name, false⟩ = Except.ok ⟨name, true⟩ ∧
    (dropHandle ⟨name, false⟩).bind dropHandle =
      Except.error (name ++ " does not exist") := by
  constructor <;> simp [dropHandle, Except.bind]

/-- C9: the cleanup sequence as written never completes — `model_fastrp` and
`node_pipeline_fastrp` were never defined by any prior step, so after the
trained model's drop the run always fails with a NameError, and the pipeline
drop, graph drop, row deletion and session close are never reached. -/
theorem cleanup_never_completes :
    ¬ "model_fastrp" ∈ definedBeforeCleanup ∧
    ¬ "node_pipeline_fastrp" ∈ definedBeforeCleanup ∧
    (runStmts definedBeforeCleanup cleanupStmts).1 =
      [⟨"model.drop()", ["model"], []⟩] ∧
    (runStmts definedBeforeCleanup cleanupStmts).2 =
      some "NameError: name model_fastrp is not defined" ∧
    (∀ s ∈ (runStmts definedBeforeCleanup cleanupStmts).1,
      ¬ s.code = "node_pipeline.drop()" ∧ ¬ s.code = "G.drop()" ∧
      ¬ s.code = "gds.run_cypher(MATCH (n) WHERE n:Paper OR n:UnclassifiedPaper DETACH DELETE n)" ∧
      ¬ s.code = "gds.close()") := by
  decide

/-- A search is unaffected by dropping elements it would not return. -/
theorem find?_filter_of_imp {α : Type} (l : List α) (p q : α → Bool)
    (h : ∀ x, p x = true → q x = true) :
    (l.filter q).find? p = l.find? p := by
  induction l with
  | nil => rfl
  | cons x xs ih =>
    by_cases hq : q x = true
    · rw [List.filter_cons_of_pos hq]
      by_cases hp : p x = true
      · rw [List.find?_cons_of_pos _ hp, List.find?_cons_of_pos _ hp]
      · rw [List.find?_cons_of_neg _ hp, List.find?_cons_of_neg _ hp]
        exact ih
    · rw [List.filter_cons_of_neg hq]
      have hp : ¬ p x = true := fun hpx => hq (h x hpx)
      rw [List.find?_cons_of_neg _ hp]
      exact ih

/-- Restricting a property map to a key set containing `k` does not change the
lookup of `k`. -/
theorem lookupProp_filter_keys (k : String) (keys : List String) (hk : k ∈ keys)
    (ps : List (String × PropVal)) :
    lookupProp k (ps.filter (fun kv => kv.1 ∈ keys)) = lookupProp k ps := by
  rw [lookupProp, lookupProp, find?_filter_of_imp]
  intro x hx
  simp only [decide_eq_true_eq] at hx ⊢
  exact hx ▸ hk

/-- Looking up a property just set returns the new value. -/
theorem lookupProp_setProp_self (ps : List (String × PropVal)) (k : String)
    (v : PropVal) : lookupProp k (setProp ps k v) = some v := by
  rw [lookupProp, setProp, List.find?_append]
  have h1 : (ps.filter (fun kv => ¬ kv.1 = k)).find? (fun kv => kv.1 = k) = none := by
    rw [List.find?_eq_none]
    intro x hx
    have := (List.mem_filter.mp hx).2
    simpa using this
  rw [h1]
  simp

/-- Setting one property does not change the lookup of another. -/
theorem lookupProp_setProp_ne (ps : List (String × PropVal)) (k k' : String)
    (v : PropVal) (hne : ¬ k' = k) :
    lookupProp k' (setProp ps k v) = lookupProp k' ps := by
  rw [lookupProp, setProp, List.find?_append]
  have h1 : (ps.filter (fun kv => ¬ kv.1 = k)).find? (fun kv => kv.1 = k') =
      ps.find? (fun kv => kv.1 = k') := by
    refine find?_filter_of_imp ps _ _ (fun x hx => ?_)
    simp only [decide_eq_true_eq] at hx ⊢
    exact fun hxk => hne (hx ▸ hxk)
  have h2 : ([(k, v)] : List (String × PropVal)).find? (fun kv => kv.1 = k') = none := by
    have hkk : ¬ k = k' := fun hx => hne hx.symm
    simp [hkk]
  rw [h1, h2, lookupProp]
  cases ps.find? (fun kv => kv.1 = k') <;> rfl

/-- A `filterMap` whose function answers `some (g a)` exactly on the elements
satisfying `p` is the map of `g` over the `p`-filter. -/
theorem filterMap_guard {α β : Type} (F : α → Option β) (p : α → Bool) (g : α → β)
    (l : List α) (h : ∀ a ∈ l, F a = if p a then some (g a) else none) :
    l.filterMap F = (l.filter p).map g := by
  induction l with
  | nil => rfl
  | cons x xs ih =>
    have hx := h x (List.mem_cons_self x xs)
    have ih' := ih (fun a ha => h a (List.mem_cons_of_mem x ha))
    by_cases hp : p x = true
    · rw [List.filter_cons_of_pos hp, List.map_cons, ← ih']
      rw [List.filterMap_cons, hx, hp]
      simp
    · have hp' : p x = false := by simpa using hp
      rw [List.filter_cons_of_neg hp, ← ih', List.filterMap_cons, hx, hp']
      simp

/-- Every merged node is the image of some CSV row. -/
theorem mem_foldl_mergeStep (rows : List ContentRow) (acc : List Node) (n : Node)
    (hn : n ∈ rows.foldl mergeStep acc) : n ∈ acc ∨ ∃ r ∈ rows, mkNode r = n := by
  induction rows generalizing acc with
  | nil => exact Or.inl (by simpa using hn)
  | cons r rs ih =>
    rw [List.foldl_cons] at hn
    rcases ih (mergeStep acc r) hn with h | h
    · rw [mergeStep] at h
      by_cases hr : mkNode r ∈ acc
      · rw [if_pos hr] at h
        exact Or.inl h
      · rw [if_neg hr] at h
        rcases List.mem_append.mp h with h | h
        · exact Or.inl h
        · exact Or.inr ⟨r, List.mem_cons_self r rs, (List.mem_singleton.mp h).symm⟩
    · rcases h with ⟨r', hr', he⟩
      exact Or.inr ⟨r', List.mem_cons_of_mem r hr', he⟩

/-- Every subject code produced by the map lies in [0,6]. -/
theorem subjectToId_bound (s : String) (c : Int) (h : subjectToId s = some c) :
    0 ≤ c ∧ c ≤ 6 := by
  rw [subjectToId] at h
  rcases Option.map_eq_some'.mp h with ⟨p, hp, hpc⟩
  have hmem : p ∈ SUBJECT_TO_ID := List.mem_of_find?_eq_some hp
  have : ∀ q ∈ SUBJECT_TO_ID, 0 ≤ q.2 ∧ q.2 ≤ 6 := by decide
  exact hpc ▸ this p hmem

/-- The stored `subject` property is the integer-coded subject of the node. -/
theorem lookupProp_subject_nodeProps (n : Node) :
    lookupProp "subject" (nodeProps n) = n.subject.map PropVal.int := by
  cases h : n.subject <;> simp [nodeProps, lookupProp, h]

/-- The stored property map of a node binds only `extId`, `subject` and
`features`. -/
theorem lookupProp_nodeProps_other (n : Node) (k : String)
    (h1 : ¬ k = "extId") (h2 : ¬ k = "subject") (h3 : ¬ k = "features") :
    lookupProp k (nodeProps n) = none := by
  have h1' : ¬ "extId" = k := fun hx => h1 hx.symm
  have h2' : ¬ "subject" = k := fun hx => h2 hx.symm
  have h3' : ¬ "features" = k := fun hx => h3 hx.symm
  cases h : n.subject <;> simp [nodeProps, lookupProp, h, h1', h2', h3']

/-- Filtering an enumerated disjoint concatenation by membership of the value
in the left part keeps exactly the enumerated left part; the complement keeps
the right part, enumerated from the length of the left. -/
theorem enum_filter_mem_left {α : Type} [DecidableEq α] (T D : List α)
    (hdisj : List.Disjoint T D) :
    (T ++ D).enum.filter (fun q => q.2 ∈ T) = T.enum ∧
    (T ++ D).enum.filter (fun q => ¬ q.2 ∈ T) = D.enumFrom T.length := by
  rw [List.enum_append, List.filter_append, List.filter_append]
  have hmemT : ∀ q ∈ T.enum, q.2 ∈ T := by
    intro q hq
    have := List.mem_map_of_mem Prod.snd hq
    rwa [List.enum_eq_enumFrom, List.enumFrom_map_snd] at this
  have hmemD : ∀ q ∈ D.enumFrom T.length, q.2 ∈ D := by
    intro q hq
    have := List.mem_map_of_mem Prod.snd hq
    rwa [List.enumFrom_map_snd] at this
  have e1 : T.enum.filter (fun q => q.2 ∈ T) = T.enum :=
    List.filter_eq_self.mpr (fun q hq => by simpa using hmemT q hq)
  have e2 : (D.enumFrom T.length).filter (fun q => q.2 ∈ T) = [] :=
    List.filter_eq_nil_iff.mpr
      (fun q hq => by simpa using fun hc => hdisj hc (hmemD q hq))
  have e3 : T.enum.filter (fun q => ¬ q.2 ∈ T) = [] :=
    List.filter_eq_nil_iff.mpr (fun q hq => by simpa using hmemT q hq)
  have e4 : (D.enumFrom T.length).filter (fun q => ¬ q.2 ∈ T) = D.enumFrom T.length :=
    List.filter_eq_self.mpr
      (fun q hq => by simpa using fun hc => hdisj hc (hmemD q hq))
  rw [e1, e2, e3, e4]
  exact ⟨List.append_nil _, List.nil_append _⟩

/-- For a duplicate-free list, the enumerated pairs whose value lies in the
`K`-prefix are exactly the enumeration of the `K`-prefix, and the others the
enumeration of the rest. -/
theorem enum_filter_mem_take {α : Type} [DecidableEq α] (L : List α) (K : Nat)
    (h : L.Nodup) :
    L.enum.filter (fun q => q.2 ∈ L.take K) = (L.take K).enum ∧
    L.enum.filter (fun q => ¬ q.2 ∈ L.take K) = (L.drop K).enumFrom (L.take K).length := by
  have hdisj : List.Disjoint (L.take K) (L.drop K) :=
    List.disjoint_take_drop h (le_refl K)
  have := enum_filter_mem_left (L.take K) (L.drop K) hdisj
  rwa [List.take_append_drop] at this

/-- With pairwise-distinct external ids, the unclassified nodes of the loaded
database are exactly the first `K` created nodes, with node ids `0..K-1`. -/
theorem db_filter_unclassified (rows : List ContentRow) (K : Nat)
    (hid : (rows.map ContentRow.extId).Nodup) :
    (dbAfterLoad rows K).filter (fun n => n.label = "UnclassifiedPaper") =
      ((rows.map mkNode).take K).enum.map (fun q =>
        { nodeId := q.1, label := "UnclassifiedPaper", props := nodeProps q.2 }) := by
  have hnodup : (rows.map mkNode).Nodup :=
    List.Nodup.of_map Node.extId (by rwa [map_extId_map_mkNode])
  calc (dbAfterLoad rows K).filter (fun n => n.label = "UnclassifiedPaper")
      = ((rows.map mkNode).enum.map (fun q =>
          ({ nodeId := q.1,
             label := if q.2 ∈ (rows.map mkNode).take K then "UnclassifiedPaper"
                      else "Paper",
             props := nodeProps q.2 } : PNode))).filter
          (fun n => n.label = "UnclassifiedPaper") := by
        rw [dbAfterLoad, mergeNodes_eq_map rows hnodup]
    _ = ((rows.map mkNode).enum.filter
          ((fun n => decide (n.label = "UnclassifiedPaper")) ∘ (fun q =>
            ({ nodeId := q.1,
               label := if q.2 ∈ (rows.map mkNode).take K then "UnclassifiedPaper"
                        else "Paper",
               props := nodeProps q.2 } : PNode)))).map (fun q =>
          ({ nodeId := q.1,
             label := if q.2 ∈ (rows.map mkNode).take K then "UnclassifiedPaper"
                      else "Paper",
             props := nodeProps q.2 } : PNode)) := List.filter_map _ _
    _ = ((rows.map mkNode).enum.filter
          (fun q => q.2 ∈ (rows.map mkNode).take K)).map (fun q =>
          ({ nodeId := q.1,
             label := if q.2 ∈ (rows.map mkNode).take K then "UnclassifiedPaper"
                      else "Paper",
             props := nodeProps q.2 } : PNode)) := by
        rw [List.filter_congr (fun q hq => ?_)]
        by_cases hm : q.2 ∈ (rows.map mkNode).take K <;> simp [hm]
    _ = (((rows.map mkNode).take K).enum).map (fun q =>
          ({ nodeId := q.1,
             label := if q.2 ∈ (rows.map mkNode).take K then "UnclassifiedPaper"
                      else "Paper",
             props := nodeProps q.2 } : PNode)) := by
        rw [(enum_filter_mem_take (rows.map mkNode) K hnodup).1]
    _ = _ := by
        refine List.map_congr_left (fun q hq => ?_)
        have hm : q.2 ∈ (rows.map mkNode).take K := by
          have := List.mem_map_of_mem Prod.snd hq
          rwa [List.enum_eq_enumFrom, List.enumFrom_map_snd] at this
        simp [hm]

/-- The prediction stream over the unclassified nodes, computed: one row per
held-out node, in node-id order, carrying one of the model's class values. -/
theorem stream_eq (rows : List ContentRow) (K : Nat)
    (pick : Nat → Nat) (prob : Nat → List ℚ)
    (hid : (rows.map ContentRow.extId).Nodup) :
    streamNodeProperty
        (predict_mutate pick prob (projectCora (dbAfterLoad rows K))
          ["UnclassifiedPaper"])
        "predictedClass" ["UnclassifiedPaper"] =
      ((rows.map mkNode).take K).enum.map (fun q =>
        (q.1, PropVal.int ((classValues (projectCora (dbAfterLoad rows K))).getD
          (pick q.1 % (classValues (projectCora (dbAfterLoad rows K))).length) 0))) := by
  rw [streamNodeProperty, predict_mutate]
  generalize classValues (projectCora (dbAfterLoad rows K)) = C
  rw [List.filterMap_map, projectCora, List.filterMap_filterMap]
  refine Eq.trans (filterMap_guard _ (fun n => n.label = "UnclassifiedPaper")
    (fun n => (n.nodeId, PropVal.int (C.getD (pick n.nodeId % C.length) 0)))
    (dbAfterLoad rows K) ?_) ?_
  · intro n hn
    rw [dbAfterLoad] at hn
    obtain ⟨q, hq, rfl⟩ := List.mem_map.mp hn
    by_cases hm : q.2 ∈ (rows.map mkNode).take K
    · simp [hm, lookupProp_setProp_ne, lookupProp_setProp_self]
    · simp [hm]
  · rw [db_filter_unclassified rows K hid, List.map_map]
    rfl

/-- C5: after training, predicting on the held-out (unclassified) node set and
streaming the predicted-class property returns exactly `K` rows, one per
held-out node identifier — the row keys are exactly the ids of the `K`
held-out nodes, namely `0..K-1`. -/
theorem predict_stream_holdout_rows
    (rows : List ContentRow) (K : Nat) (pick : Nat → Nat) (prob : Nat → List ℚ)
    (hK : K ≤ rows.length)
    (hid : (rows.map ContentRow.extId).Nodup) :
    (streamNodeProperty
        (predict_mutate pick prob (projectCora (dbAfterLoad rows K))
          ["UnclassifiedPaper"])
        "predictedClass" ["UnclassifiedPaper"]).length = K ∧
    (streamNodeProperty
        (predict_mutate pick prob (projectCora (dbAfterLoad rows K))
          ["UnclassifiedPaper"])
        "predictedClass" ["UnclassifiedPaper"]).map Prod.fst =
      ((dbAfterLoad rows K).filter
        (fun n => n.label = "UnclassifiedPaper")).map PNode.nodeId ∧
    (streamNodeProperty
        (predict_mutate pick prob (projectCora (dbAfterLoad rows K))
          ["UnclassifiedPaper"])
        "predictedClass" ["UnclassifiedPaper"]).map Prod.fst = List.range K := by
  rw [stream_eq rows K pick prob hid]
  refine ⟨?_, ?_, ?_⟩
  · rw [List.length_map, List.enum_length, List.length_take, List.length_map]
    exact Nat.min_eq_left hK
  · rw [db_filter_unclassified rows K hid, List.map_map, List.map_map]
    rfl
  · rw [List.map_map]
    show ((rows.map mkNode).take K).enum.map Prod.fst = List.range K
    rw [List.enum_eq_enumFrom, List.enumFrom_map_fst, List.length_take,
      List.length_map, Nat.min_eq_left hK]
    exact (List.range_eq_range' K).symm

/-- C5 witness: two concrete rows with one held out — the stream has one row,
keyed by node id 0. -/
theorem predict_stream_holdout_rows_witness :
    (1 : Nat) ≤ ([⟨1, "Theory", [1]⟩, ⟨2, "Rule_Learning", [0]⟩] :
        List ContentRow).length ∧
    ((streamNodeProperty
        (predict_mutate (fun x => 0) (fun x => [])
          (projectCora (dbAfterLoad [⟨1, "Theory", [1]⟩, ⟨2, "Rule_Learning", [0]⟩] 1))
          ["UnclassifiedPaper"])
        "predictedClass" ["UnclassifiedPaper"]).length = 1 ∧
    (streamNodeProperty
        (predict_mutate (fun x => 0) (fun x => [])
          (projectCora (dbAfterLoad [⟨1, "Theory", [1]⟩, ⟨2, "Rule_Learning", [0]⟩] 1))
          ["UnclassifiedPaper"])
        "predictedClass" ["UnclassifiedPaper"]).map Prod.fst =
      ((dbAfterLoad [⟨1, "Theory", [1]⟩, ⟨2, "Rule_Learning", [0]⟩] 1).filter
        (fun n => n.label = "UnclassifiedPaper")).map PNode.nodeId ∧
    (streamNodeProperty
        (predict_mutate (fun x => 0) (fun x => [])
          (projectCora (dbAfterLoad [⟨1, "Theory", [1]⟩, ⟨2, "Rule_Learning", [0]⟩] 1))
          ["UnclassifiedPaper"])
        "predictedClass" ["UnclassifiedPaper"]).map Prod.fst = List.range 1) :=
  ⟨by decide,
   predict_stream_holdout_rows [⟨1, "Theory", [1]⟩, ⟨2, "Rule_Learning", [0]⟩] 1
     (fun x => 0) (fun x => []) (by decide) (by decide)⟩

/-- Every class value of the trained model is an integer subject code in
[0,6]: it is the stored subject of some projected `Paper` node, which came
from a CSV row through the subject map. -/
theorem classValues_bound (rows : List ContentRow) (K : Nat) :
    ∀ c ∈ classValues (projectCora (dbAfterLoad rows K)), 0 ≤ c ∧ c ≤ 6 := by
  intro c hc
  rw [classValues, List.mem_dedup] at hc
  obtain ⟨n, hn, hcf⟩ := List.mem_filterMap.mp hc
  rw [projectCora] at hn
  obtain ⟨m, hm, hpf⟩ := List.mem_filterMap.mp hn
  rw [dbAfterLoad] at hm
  obtain ⟨q, hq, rfl⟩ := List.mem_map.mp hm
  have hq2 : q.2 ∈ mergeNodes rows := by
    have := List.mem_map_of_mem Prod.snd hq
    rwa [List.enum_eq_enumFrom, List.enumFrom_map_snd] at this
  obtain ⟨r, hr, hrq⟩ : ∃ r ∈ rows, mkNode r = q.2 := by
    rcases mem_foldl_mergeStep rows [] q.2 hq2 with h | h
    · simp at h
    · exact h
  by_cases hmem : q.2 ∈ (rows.map mkNode).take K
  · simp only [hmem, if_true] at hpf
    have hn' := Option.some.inj hpf
    subst hn'
    simp at hcf
  · simp only [hmem, if_false] at hpf
    have hn' := Option.some.inj hpf
    subst hn'
    rw [lookupProp_filter_keys "subject" _ (by simp), lookupProp_subject_nodeProps] at hcf
    rw [← hrq] at hcf
    rw [show (mkNode r).subject = subjectToId r.subject from rfl] at hcf
    cases hsid : subjectToId r.subject with
    | none => rw [hsid] at hcf; simp at hcf
    | some c' =>
        rw [hsid] at hcf
        simp [asInt] at hcf
        subst hcf
        exact subjectToId_bound r.subject _ hsid

/-- With at least one labeled row remaining, the trained model has at least
one class value. -/
theorem classValues_ne_nil (rows : List ContentRow) (K : Nat)
    (hN : K < rows.length)
    (hid : (rows.map ContentRow.extId).Nodup)
    (hsub : ∀ r ∈ rows, (subjectToId r.subject).isSome) :
    ¬ classValues (projectCora (dbAfterLoad rows K)) = [] := by
  have hnodup : (rows.map mkNode).Nodup :=
    List.Nodup.of_map Node.extId (by rwa [map_extId_map_mkNode])
  have hKlen : K < (rows.map mkNode).length := by rwa [List.length_map]
  have hqmem : (K, (rows.map mkNode)[K]) ∈ (rows.map mkNode).enum :=
    List.mk_mem_enum_iff_getElem?.mpr (by rw [List.getElem?_eq_getElem hKlen])
  have hnotin : ¬ (rows.map mkNode)[K] ∈ (rows.map mkNode).take K := by
    intro hcon
    have hdisj := List.disjoint_take_drop hnodup (le_refl K)
    have hdropmem : (rows.map mkNode)[K] ∈ (rows.map mkNode).drop K := by
      have h0 : 0 < ((rows.map mkNode).drop K).length := by
        rw [List.length_drop]
        omega
      have he : ((rows.map mkNode).drop K)[0] = (rows.map mkNode)[K] := by
        simp
      exact he ▸ List.getElem_mem h0
    exact hdisj hcon hdropmem
  have hdb : PNode.mk K
      (if (rows.map mkNode)[K] ∈ (rows.map mkNode).take K
       then "UnclassifiedPaper" else "Paper")
      (nodeProps ((rows.map mkNode)[K])) ∈ dbAfterLoad rows K := by
    rw [dbAfterLoad, mergeNodes_eq_map rows hnodup]
    exact List.mem_map_of_mem _ hqmem
  rw [if_neg hnotin] at hdb
  obtain ⟨c, hc⟩ : ∃ c : Int, ((rows.map mkNode)[K]).subject = some c := by
    have he : (rows.map mkNode)[K] = mkNode (rows.get ⟨K, hN⟩) := by
      simp [List.getElem_map]
    rw [he]
    exact Option.isSome_iff_exists.mp (hsub _ (List.get_mem rows K hN))
  intro hnil
  have hcmem : c ∈ classValues (projectCora (dbAfterLoad rows K)) := by
    rw [classValues, List.mem_dedup]
    refine List.mem_filterMap.mpr ⟨PNode.mk K "Paper"
      ((nodeProps ((rows.map mkNode)[K])).filter
        (fun kv => kv.1 ∈ (["features", "subject"] : List String))), ?_, ?_⟩
    · rw [projectCora]
      refine List.mem_filterMap.mpr ⟨_, hdb, ?_⟩
      simp
    · simp only [if_pos rfl]
      rw [lookupProp_filter_keys "subject" _ (by simp), lookupProp_subject_nodeProps, hc]
      simp [asInt]
  rw [hnil] at hcmem
  simp at hcmem

/-- C7: in the end-to-end scenario (7 categories, 10 held-out nodes,
`testFraction=0.2`, `validationFolds=5`, one logistic-regression candidate
with `maxEpochs=200` and penalty range `(0.0, 0.5)`, `maxTrials=5`, metric
`F1_WEIGHTED`) the training result exposes a single scalar test-set F1 score,
and the prediction stream has exactly 10 rows, each carrying an integer class
in [0,6]. -/
theorem end_to_end_scenario
    (rows : List ContentRow) (pick : Nat → Nat) (prob : Nat → List ℚ)
    (score : String → ℚ)
    (hN : HOLDOUT_NODES < rows.length)
    (hid : (rows.map ContentRow.extId).Nodup)
    (hsub : ∀ r ∈ rows, (subjectToId r.subject).isSome) :
    SUBJECT_TO_ID.length = 7 ∧
    HOLDOUT_NODES = 10 ∧
    notebookTrainConfig.testFraction = 1 / 5 ∧
    notebookTrainConfig.validationFolds = 5 ∧
    notebookTrainConfig.maxEpochs = 200 ∧
    notebookTrainConfig.penaltyRange = (0, 1 / 2) ∧
    notebookTrainConfig.maxTrials = 5 ∧
    (∃ x : ℚ, (train notebookTrainConfig score).metrics =
      [("F1_WEIGHTED", { test := x })]) ∧
    (streamNodeProperty
        (predict_mutate pick prob (projectCora (dbAfterLoad rows HOLDOUT_NODES))
          ["UnclassifiedPaper"])
        "predictedClass" ["UnclassifiedPaper"]).length = 10 ∧
    (∀ r ∈ streamNodeProperty
        (predict_mutate pick prob (projectCora (dbAfterLoad rows HOLDOUT_NODES))
          ["UnclassifiedPaper"])
        "predictedClass" ["UnclassifiedPaper"],
      ∃ c : Int, r.2 = PropVal.int c ∧ 0 ≤ c ∧ c ≤ 6) := by
  refine ⟨rfl, rfl, rfl, rfl, rfl, rfl, rfl, ⟨score "F1_WEIGHTED", rfl⟩, ?_, ?_⟩
  · exact (predict_stream_holdout_rows rows HOLDOUT_NODES pick prob
      (Nat.le_of_lt hN) hid).1
  · have hCne := classValues_ne_nil rows HOLDOUT_NODES hN hid hsub
    have hlen : 0 < (classValues (projectCora (dbAfterLoad rows HOLDOUT_NODES))).length :=
      List.length_pos.mpr hCne
    rw [stream_eq rows HOLDOUT_NODES pick prob hid]
    intro r hr
    obtain ⟨q, hq, rfl⟩ := List.mem_map.mp hr
    have hidx : pick q.1 % (classValues (projectCora (dbAfterLoad rows HOLDOUT_NODES))).length <
        (classValues (projectCora (dbAfterLoad rows HOLDOUT_NODES))).length :=
      Nat.mod_lt _ hlen
    have hmem : (classValues (projectCora (dbAfterLoad rows HOLDOUT_NODES))).getD
        (pick q.1 % (classValues (projectCora (dbAfterLoad rows HOLDOUT_NODES))).length) 0 ∈
        classValues (projectCora (dbAfterLoad rows HOLDOUT_NODES)) := by
      rw [List.getD_eq_getElem _ _ hidx]
      exact List.getElem_mem hidx
    exact ⟨_, rfl, classValues_bound rows HOLDOUT_NODES _ hmem⟩

/-- C7 witness: the end-to-end scenario on the 11 concrete rows. -/
theorem end_to_end_scenario_witness :
    HOLDOUT_NODES < coraWitnessRows.length ∧
    (SUBJECT_TO_ID.length = 7 ∧
    HOLDOUT_NODES = 10 ∧
    notebookTrainConfig.testFraction = 1 / 5 ∧
    notebookTrainConfig.validationFolds = 5 ∧
    notebookTrainConfig.maxEpochs = 200 ∧
    notebookTrainConfig.penaltyRange = (0, 1 / 2) ∧
    notebookTrainConfig.maxTrials = 5 ∧
    (∃ x : ℚ, (train notebookTrainConfig (fun s => 0)).metrics =
      [("F1_WEIGHTED", { test := x })]) ∧
    (streamNodeProperty
        (predict_mutate (fun i => 0) (fun i => [])
          (projectCora (dbAfterLoad coraWitnessRows HOLDOUT_NODES))
          ["UnclassifiedPaper"])
        "predictedClass" ["UnclassifiedPaper"]).length = 10 ∧
    (∀ r ∈ streamNodeProperty
        (predict_mutate (fun i => 0) (fun i => [])
          (projectCora (dbAfterLoad coraWitnessRows HOLDOUT_NODES))
          ["UnclassifiedPaper"])
        "predictedClass" ["UnclassifiedPaper"],
      ∃ c : Int, r.2 = PropVal.int c ∧ 0 ≤ c ∧ c ≤ 6)) :=
  ⟨by decide,
   end_to_end_scenario coraWitnessRows (fun i => 0) (fun i => []) (fun s => 0)
     (by decide) (by decide) (by decide)⟩

/-- A `filterMap` that never drops an element is a map. -/
theorem filterMap_eq_map_of_some {α β : Type} (F : α → Option β) (g : α → β)
    (l : List α) (h : ∀ a ∈ l, F a = some (g a)) : l.filterMap F = l.map g := by
  induction l with
  | nil => rfl
  | cons x xs ih =>
    rw [List.filterMap_cons, h x (List.mem_cons_self x xs), List.map_cons,
      ih (fun a ha => h a (List.mem_cons_of_mem x ha))]

/-- Searching a list of nodes built over pairwise-distinct ids for a given id:
only the node carrying that id can answer. -/
theorem find?_map_enum {α : Type} (l : List (Nat × α))
    (hfst : (l.map Prod.fst).Nodup)
    (f : Nat × α → PNode) (hf : ∀ p, (f p).nodeId = p.1)
    (P : PNode → Bool) (q : Nat × α) (hq : q ∈ l) (j : Nat) (hj : j = q.1) :
    (l.map f).find? (fun gn => gn.nodeId == j && P gn) =
      (if P (f q) then some (f q) else none) := by
  subst hj
  induction l with
  | nil => cases hq
  | cons x xs ih =>
    rw [List.map_cons, List.nodup_cons] at hfst
    rcases List.mem_cons.mp hq with rfl | hq'
    · rw [List.map_cons]
      by_cases hP : P (f q) = true
      · rw [List.find?_cons_of_pos _ (by rw [hf]; simp [hP])]
        rw [if_pos hP]
      · have hP' : P (f q) = false := by simpa using hP
        rw [List.find?_cons_of_neg _ (by rw [hf]; simp [hP'])]
        rw [if_neg (by simp [hP'])]
        rw [List.find?_eq_none]
        intro gn hgn
        obtain ⟨y, hy, rfl⟩ := List.mem_map.mp hgn
        have hne : ¬ y.1 = q.1 := by
          intro he
          exact hfst.1 (he ▸ List.mem_map_of_mem Prod.fst hy)
        rw [hf]
        simp [hne]
    · rw [List.map_cons]
      have hne : ¬ x.1 = q.1 := by
        intro he
        exact hfst.1 (he ▸ List.mem_map_of_mem Prod.fst hq')
      rw [List.find?_cons_of_neg _ (by rw [hf]; simp [hne])]
      exact ih hfst.2 hq'

/-- The mutated projection, computed per merged node: unclassified nodes carry
the two prediction properties over their projected features, labeled nodes
their projected features and subject. -/
theorem predict_project_eq (rows : List ContentRow) (K : Nat)
    (pick : Nat → Nat) (prob : Nat → List ℚ) :
    predict_mutate pick prob (projectCora (dbAfterLoad rows K)) ["UnclassifiedPaper"] =
      (mergeNodes rows).enum.map (fun q =>
        (if q.2 ∈ (rows.map mkNode).take K then
          PNode.mk q.1 "UnclassifiedPaper"
            (setProp
              (setProp
                ((nodeProps q.2).filter (fun kv => kv.1 ∈ (["features"] : List String)))
                "predictedClass"
                (PropVal.int ((classValues (projectCora (dbAfterLoad rows K))).getD
                  (pick q.1 % (classValues (projectCora (dbAfterLoad rows K))).length) 0)))
              "predictedProbabilities" (PropVal.ratList (prob q.1)))
        else
          PNode.mk q.1 "Paper"
            ((nodeProps q.2).filter
              (fun kv => kv.1 ∈ (["features", "subject"] : List String))))) := by
  rw [predict_mutate]
  generalize classValues (projectCora (dbAfterLoad rows K)) = C
  rw [dbAfterLoad, projectCora, List.filterMap_map, List.map_filterMap]
  refine filterMap_eq_map_of_some _ _ _ (fun q hq => ?_)
  by_cases hm : q.2 ∈ (rows.map mkNode).take K
  · simp [hm]
  · simp [hm]

/-- The written-back database, computed per merged node: each unclassified
node gains exactly the `predictedClass` property, each labeled node is
untouched. -/
theorem nodePropertiesWrite_eq (rows : List ContentRow) (K : Nat)
    (pick : Nat → Nat) (prob : Nat → List ℚ) :
    nodePropertiesWrite
        (predict_mutate pick prob (projectCora (dbAfterLoad rows K))
          ["UnclassifiedPaper"])
        (dbAfterLoad rows K) ["predictedClass"] ["UnclassifiedPaper"] =
      (mergeNodes rows).enum.map (fun q =>
        (if q.2 ∈ (rows.map mkNode).take K then
          PNode.mk q.1 "UnclassifiedPaper"
            (setProp (nodeProps q.2) "predictedClass"
              (PropVal.int ((classValues (projectCora (dbAfterLoad rows K))).getD
                (pick q.1 % (classValues (projectCora (dbAfterLoad rows K))).length) 0)))
        else
          PNode.mk q.1
            (if q.2 ∈ (rows.map mkNode).take K then "UnclassifiedPaper" else "Paper")
            (nodeProps q.2))) := by
  rw [nodePropertiesWrite, predict_project_eq rows K pick prob]
  generalize classValues (projectCora (dbAfterLoad rows K)) = C
  rw [dbAfterLoad, List.map_map]
  refine List.map_congr_left (fun q hq => ?_)
  have hfst : ((mergeNodes rows).enum.map Prod.fst).Nodup := by
    rw [List.enum_eq_enumFrom, List.enumFrom_map_fst]
    exact List.nodup_range' 0 (mergeNodes rows).length
  simp only [Function.comp_apply]
  rw [find?_map_enum (mergeNodes rows).enum hfst
    (fun q =>
      (if q.2 ∈ (rows.map mkNode).take K then
        PNode.mk q.1 "UnclassifiedPaper"
          (setProp
            (setProp
              ((nodeProps q.2).filter (fun kv => kv.1 ∈ (["features"] : List String)))
              "predictedClass" (PropVal.int (C.getD (pick q.1 % C.length) 0)))
            "predictedProbabilities" (PropVal.ratList (prob q.1)))
      else
        PNode.mk q.1 "Paper"
          ((nodeProps q.2).filter
            (fun kv => kv.1 ∈ (["features", "subject"] : List String)))))
    (fun p => by by_cases hp : p.2 ∈ (rows.map mkNode).take K <;> simp [hp])
    (fun gn => decide (gn.label ∈ (["UnclassifiedPaper"] : List String))) q hq q.1 rfl]
  by_cases hm : q.2 ∈ (rows.map mkNode).take K
  · rw [if_pos (by simp [hm])]
    simp only [hm, if_true]
    rw [List.foldl_cons, lookupProp_setProp_ne _ _ _ _ (by decide),
      lookupProp_setProp_self]
    simp [hm]
  · rw [if_neg (by simp [hm])]
    simp [hm]

/-- C10: the write-back persists only the predicted-class property and only
for held-out (unclassified) nodes: every `Paper` node of the database is
unchanged at its position, no database node ever carries the
predicted-probability property, and every property other than the predicted
class is unchanged on every node. -/
theorem writeback_frame (rows : List ContentRow) (K : Nat)
    (pick : Nat → Nat) (prob : Nat → List ℚ) :
    (nodePropertiesWrite
        (predict_mutate pick prob (projectCora (dbAfterLoad rows K))
          ["UnclassifiedPaper"])
        (dbAfterLoad rows K) ["predictedClass"] ["UnclassifiedPaper"]).length =
      (dbAfterLoad rows K).length ∧
    (∀ (i : Nat) (dn : PNode), (dbAfterLoad rows K)[i]? = some dn →
      dn.label = "Paper" →
      (nodePropertiesWrite
        (predict_mutate pick prob (projectCora (dbAfterLoad rows K))
          ["UnclassifiedPaper"])
        (dbAfterLoad rows K) ["predictedClass"] ["UnclassifiedPaper"])[i]? = some dn) ∧
    (∀ dn' ∈ nodePropertiesWrite
        (predict_mutate pick prob (projectCora (dbAfterLoad rows K))
          ["UnclassifiedPaper"])
        (dbAfterLoad rows K) ["predictedClass"] ["UnclassifiedPaper"],
      lookupProp "predictedProbabilities" dn'.props = none) ∧
    (∀ (i : Nat) (dn dn' : PNode), (dbAfterLoad rows K)[i]? = some dn →
      (nodePropertiesWrite
        (predict_mutate pick prob (projectCora (dbAfterLoad rows K))
          ["UnclassifiedPaper"])
        (dbAfterLoad rows K) ["predictedClass"] ["UnclassifiedPaper"])[i]? = some dn' →
      ∀ k : String, ¬ k = "predictedClass" →
      lookupProp k dn'.props = lookupProp k dn.props) := by
  rw [nodePropertiesWrite_eq rows K pick prob]
  generalize classValues (projectCora (dbAfterLoad rows K)) = C
  rw [dbAfterLoad]
  refine ⟨by simp, ?_, ?_, ?_⟩
  · intro i dn hdb hlab
    rw [List.getElem?_map] at hdb
    cases h : (mergeNodes rows).enum[i]? with
    | none => rw [h] at hdb; cases hdb
    | some q =>
      rw [h] at hdb
      have hdn := (Option.some.inj hdb).symm
      subst hdn
      have hmq : ¬ q.2 ∈ (rows.map mkNode).take K := by
        intro hmem
        simp [hmem] at hlab
      rw [List.getElem?_map, h]
      simp [hmq]
  · intro dn' hdn'
    obtain ⟨q, hq, rfl⟩ := List.mem_map.mp hdn'
    by_cases hm : q.2 ∈ (rows.map mkNode).take K
    · simp only [hm, if_true]
      rw [lookupProp_setProp_ne _ _ _ _ (by decide)]
      exact lookupProp_nodeProps_other q.2 "predictedProbabilities"
        (by decide) (by decide) (by decide)
    · simp only [hm, if_false]
      exact lookupProp_nodeProps_other q.2 "predictedProbabilities"
        (by decide) (by decide) (by decide)
  · intro i dn dn' hdb hdb' k hk
    rw [List.getElem?_map] at hdb hdb'
    cases h : (mergeNodes rows).enum[i]? with
    | none => rw [h] at hdb; cases hdb
    | some q =>
      rw [h] at hdb hdb'
      have hdn := (Option.some.inj hdb).symm
      have hdn' := (Option.some.inj hdb').symm
      subst hdn
      subst hdn'
      by_cases hm : q.2 ∈ (rows.map mkNode).take K
      · simp only [hm, if_true]
        exact lookupProp_setProp_ne _ _ _ _ hk
      · simp only [hm, if_false]

/-- C10 witness: the write-back on a two-row load with one held-out node. -/
theorem writeback_frame_witness :
    (nodePropertiesWrite
        (predict_mutate (fun i => 0) (fun i => [])
          (projectCora (dbAfterLoad [⟨1, "Theory", [1]⟩, ⟨2, "Case_Based", [0]⟩] 1))
          ["UnclassifiedPaper"])
        (dbAfterLoad [⟨1, "Theory", [1]⟩, ⟨2, "Case_Based", [0]⟩] 1)
        ["predictedClass"] ["UnclassifiedPaper"]).length =
      (dbAfterLoad [⟨1, "Theory", [1]⟩, ⟨2, "Case_Based", [0]⟩] 1).length ∧
    (∀ (i : Nat) (dn : PNode),
      (dbAfterLoad [⟨1, "Theory", [1]⟩, ⟨2, "Case_Based", [0]⟩] 1)[i]? = some dn →
      dn.label = "Paper" →
      (nodePropertiesWrite
        (predict_mutate (fun i => 0) (fun i => [])
          (projectCora (dbAfterLoad [⟨1, "Theory", [1]⟩, ⟨2, "Case_Based", [0]⟩] 1))
          ["UnclassifiedPaper"])
        (dbAfterLoad [⟨1, "Theory", [1]⟩, ⟨2, "Case_Based", [0]⟩] 1)
        ["predictedClass"] ["UnclassifiedPaper"])[i]? = some dn) ∧
    (∀ dn' ∈ nodePropertiesWrite
        (predict_mutate (fun i => 0) (fun i => [])
          (projectCora (dbAfterLoad [⟨1, "Theory", [1]⟩, ⟨2, "Case_Based", [0]⟩] 1))
          ["UnclassifiedPaper"])
        (dbAfterLoad [⟨1, "Theory", [1]⟩, ⟨2, "Case_Based", [0]⟩] 1)
        ["predictedClass"] ["UnclassifiedPaper"],
      lookupProp "predictedProbabilities" dn'.props = none) ∧
    (∀ (i : Nat) (dn dn' : PNode),
      (dbAfterLoad [⟨1, "Theory", [1]⟩, ⟨2, "Case_Based", [0]⟩] 1)[i]? = some dn →
      (nodePropertiesWrite
        (predict_mutate (fun i => 0) (fun i => [])
          (projectCora (dbAfterLoad [⟨1, "Theory", [1]⟩, ⟨2, "Case_Based", [0]⟩] 1))
          ["UnclassifiedPaper"])
        (dbAfterLoad [⟨1, "Theory", [1]⟩, ⟨2, "Case_Based", [0]⟩] 1)
        ["predictedClass"] ["UnclassifiedPaper"])[i]? = some dn' →
      ∀ k : String, ¬ k = "predictedClass" →
      lookupProp k dn'.props = lookupProp k dn.props) :=
  writeback_frame [⟨1, "Theory", [1]⟩, ⟨2, "Case_Based", [0]⟩] 1
    (fun i => 0) (fun i => [])

end Cora
